import Mathlib

/-!
# Verification of the car-sequencing problem implementation

Shallow embedding of `car_sequencing_problem.py` (class `CarSequencingProblem`):
the instance data model, the instance loader `_load_instance` (modelled on its
integer-token stream, after file I/O has produced the list of integers), and
the objective evaluator `evaluate_solution`.

Python exceptions are modelled as `none` / `Except.error`; Python `int` is
`Int`; Python lists of integers are `List Int`.
-/

namespace CarSeq

/-- The instance data held by `CarSequencingProblem`:
`nb_positions`, `nb_options`, `max_cars_per_window`, `window_size`,
`options` (per class, per option requirement flags) and `initial_sequence`
(class index for each car of the initial production plan). -/
structure CarSequencingProblem where
  nb_positions : Int
  nb_options : Int
  max_cars_per_window : List Int
  window_size : List Int
  options : List (List Bool)
  initial_sequence : List Int
deriving DecidableEq, Repr

/-- Python list indexing `l[i]`: a negative index counts from the end;
an index out of range raises `IndexError`, modelled as `none`. -/
def pyGet? {α : Type} (l : List α) (i : Int) : Option α :=
  let j : Int := if i < 0 then i + l.length else i
  if h : 0 ≤ j ∧ j.toNat < l.length then some (l.get ⟨j.toNat, h.2⟩) else none

/-- The shape of a Python value passed as candidate solution: a list of
integers, a tuple of integers, some other sequence type whose elements are
the integers given (e.g. a `range` object), or a value that is not a
sequence at all.  `isinstance(solution, (list, tuple))` accepts exactly the
first two shapes. -/
inductive PyCandidate where
  | list (xs : List Int)
  | tuple (xs : List Int)
  | otherSeq (xs : List Int)
  | nonSequence
deriving DecidableEq, Repr

/-- The sentinel `PENALTY = 1e9` returned for structurally invalid
candidates (the float `1e9` has the exact integer value `10^9`). -/
def PENALTY : Int := 1000000000

/-- Python `sorted` on a list of integers (any correct comparison sort;
we use insertion sort so that it evaluates by kernel reduction). -/
def pySorted (xs : List Int) : List Int := List.insertionSort (· ≤ ·) xs

/-- Python `list(range(n))` for an integer `n`, as a list of `Int`
(empty when `n ≤ 0`). -/
def rangeList (n : Nat) : List Int := (List.range n).map Nat.cast

/-- The innermost loop of `evaluate_solution`: for `k in range(w)`, look up
`car_class = sequence[j+k]` and test `self.options[car_class][o]`,
incrementing the count.  Any failing lookup is a raised exception (`none`). -/
def windowCount? (p : CarSequencingProblem) (sequence : List Int)
    (o j w : Nat) : Option Nat :=
  (List.range w).foldlM
    (fun count k => do
      let car_class ← pyGet? sequence ((j + k : Nat) : Int)
      let row ← pyGet? p.options car_class
      let b ← pyGet? row (o : Int)
      pure (if b then count + 1 else count))
    0

/-- One iteration of the outer `for o in range(self.nb_options)` loop of
`evaluate_solution`: fetch `w = self.window_size[o]` and
`max_allowed = self.max_cars_per_window[o]`, then for each window start
`j in range(self.nb_positions - w + 1)` add the excess
`count - max_allowed` when `count > max_allowed`. -/
def optionTotal? (p : CarSequencingProblem) (sequence : List Int)
    (acc : Int) (o : Nat) : Option Int := do
  let w ← pyGet? p.window_size (o : Int)
  let max_allowed ← pyGet? p.max_cars_per_window (o : Int)
  (List.range (p.nb_positions - w + 1).toNat).foldlM
    (fun total j => do
      let count ← windowCount? p sequence o j w.toNat
      pure (if (count : Int) > max_allowed then
              total + ((count : Int) - max_allowed) else total))
    acc

/-- `CarSequencingProblem.evaluate_solution`: validate the candidate
(`isinstance(solution, (list, tuple))`, length check, sorted-permutation
check — each failure returns `PENALTY`), reconstruct
`sequence[i] = initial_sequence[solution[i]]`, then run the sliding-window
scan.  A raised exception is `none`. -/
def evaluate_solution (p : CarSequencingProblem) (solution : PyCandidate) :
    Option Int :=
  match solution with
  | .list xs | .tuple xs =>
    if (xs.length : Int) ≠ p.nb_positions then some PENALTY
    else if pySorted xs ≠ rangeList p.nb_positions.toNat then some PENALTY
    else do
      let sequence ← xs.mapM (pyGet? p.initial_sequence)
      (List.range p.nb_options.toNat).foldlM (optionTotal? p sequence) 0
  | _ => some PENALTY

/-! ## The reference objective, stated from the specification -/

/-- Total lookup `class_options[c][o]` (meaningful when `c` is a valid
class id and `o < option_count`). -/
def optRequired (p : CarSequencingProblem) (c : Int) (o : Nat) : Bool :=
  (p.options.getD c.toNat []).getD o false

/-- The reconstruction step `sequence[i] = initial_sequence[candidate[i]]`
as a total function (meaningful when the candidate is a valid
permutation). -/
def reconstruct (p : CarSequencingProblem) (xs : List Int) : List Int :=
  xs.map (fun i => p.initial_sequence.getD i.toNat 0)

/-- Reference count for option `o` and window start `j`: the number of
positions `k` in `[j, j + window_size[o])` whose class requires option
`o`. -/
def specWindowCount (p : CarSequencingProblem) (sequence : List Int)
    (o j : Nat) : Nat :=
  ((List.range (p.window_size.getD o 0).toNat).filter
    (fun k => optRequired p (sequence.getD (j + k) 0) o)).length

/-- Reference contribution of option `o`: the sum over every window start
`j` in `[0, position_count - window_size[o]]` (inclusive; empty when
`window_size[o] > position_count`) of `max 0 (count - max_per_window[o])`. -/
def optionScore (p : CarSequencingProblem) (sequence : List Int) (o : Nat) :
    Int :=
  ((List.range (p.nb_positions.toNat + 1 - (p.window_size.getD o 0).toNat)).map
    (fun j => max 0 ((specWindowCount p sequence o j : Int) -
      p.max_cars_per_window.getD o 0))).sum

/-- The reference objective from the specification: the sum over every
option `o` in `[0, option_count)` of the per-option sum of per-window
excesses. -/
def specObjective (p : CarSequencingProblem) (sequence : List Int) : Int :=
  ((List.range p.nb_options.toNat).map (optionScore p sequence)).sum

/-- The data-model invariants of an instance, from the specification:
positive position and option counts, per-option lists of the right length,
positive window sizes, full rows of option flags, an initial sequence of
length `position_count` whose entries are valid class ids. -/
def Invariants (p : CarSequencingProblem) : Prop :=
  0 < p.nb_positions ∧ 0 < p.nb_options ∧
  p.max_cars_per_window.length = p.nb_options.toNat ∧
  p.window_size.length = p.nb_options.toNat ∧
  (∀ w ∈ p.window_size, 0 < w) ∧
  (∀ row ∈ p.options, row.length = p.nb_options.toNat) ∧
  (p.initial_sequence.length : Int) = p.nb_positions ∧
  (∀ c ∈ p.initial_sequence, 0 ≤ c ∧ c.toNat < p.options.length)

instance (p : CarSequencingProblem) : Decidable (Invariants p) := by
  unfold Invariants
  infer_instance

/-- A candidate that is a valid permutation of `[0, position_count)`. -/
def IsValidPerm (n : Nat) (xs : List Int) : Prop := xs.Perm (rangeList n)

instance (n : Nat) (xs : List Int) : Decidable (IsValidPerm n xs) := by
  unfold IsValidPerm
  infer_instance

/-! ## Candidates with arbitrary Python elements

`PyCandidate` covers candidates whose elements are Python ints.  Python's
duck typing also admits sequence-like candidates with other element
values, and on some of those `evaluate_solution` raises; the following
types extend the embedding to such candidates. -/

/-- A Python value that may appear as an element of a candidate sequence:
an integer; a float, modelled by its exact rational value (every finite
Python float is a rational number, and Python compares ints and floats by
exact value); or an object that is unorderable with numbers and with
itself (such as `None` or a dict), so that every `<` comparison on it
raises `TypeError`. -/
inductive PyVal where
  | int (n : Int)
  | float (q : ℚ)
  | obj
deriving DecidableEq, Repr

/-- Whether the element is a Python int. -/
def PyVal.isInt : PyVal → Bool
  | .int _ => true
  | _ => false

/-- Whether `<` comparisons with numbers succeed on the element. -/
def PyVal.orderable : PyVal → Bool
  | .obj => false
  | _ => true

/-- The numeric value of an orderable element; the sort below only uses
it when every element of the list is orderable, so the value assigned to
`obj` is never relevant. -/
def PyVal.val : PyVal → ℚ
  | .int n => n
  | .float q => q
  | .obj => 0

/-- Python `==` between a candidate element and an int, as used when the
sorted candidate is compared with `list(range(nb_positions))`: numbers
compare by exact value (`0.0 == 0` is true), any other object compares
unequal. -/
def pyEqInt : PyVal → Int → Bool
  | .int n, m => n == m
  | .float q, m => q == (m : ℚ)
  | .obj, _ => false

/-- Python `==` between a list of candidate elements and a list of ints:
equal lengths and elementwise `==`. -/
def pyEqList : List PyVal → List Int → Bool
  | [], [] => true
  | a :: xs, b :: ys => pyEqInt a b && pyEqList xs ys
  | _, _ => false

/-- Python `sorted` over arbitrary candidate elements.  A list of length
at most one involves no comparison and is returned unchanged.  Otherwise,
when every element is orderable the result is the stable sort by numeric
value; when some element is not, a comparison sort of two or more
elements necessarily compares that element with another one, so `sorted`
raises `TypeError` (`none`). -/
def sortedPy? (xs : List PyVal) : Option (List PyVal) :=
  if xs.length ≤ 1 then some xs
  else if xs.all PyVal.orderable = true then
    some (List.insertionSort (fun u v => u.val ≤ v.val) xs)
  else none

/-- Python list indexing `l[v]` by an arbitrary candidate element: list
indices must be integers, so a float or any other non-int object raises
`TypeError` (`none`). -/
def pyIndex? (l : List Int) : PyVal → Option Int
  | .int i => pyGet? l i
  | _ => none

/-- The shape of an arbitrary Python value passed as candidate: as
`PyCandidate`, but with arbitrary sequence elements. -/
inductive PyObj where
  | list (xs : List PyVal)
  | tuple (xs : List PyVal)
  | otherSeq (xs : List PyVal)
  | nonSequence
deriving DecidableEq, Repr

/-- A candidate all of whose sequence elements (if it is a list or tuple)
are Python ints. -/
def PyObj.allInt : PyObj → Prop
  | .list xs | .tuple xs => ∀ v ∈ xs, v.isInt = true
  | _ => True

instance (c : PyObj) : Decidable c.allInt :=
  match c with
  | .list xs => inferInstanceAs (Decidable (∀ v ∈ xs, PyVal.isInt v = true))
  | .tuple xs => inferInstanceAs (Decidable (∀ v ∈ xs, PyVal.isInt v = true))
  | .otherSeq _ => inferInstanceAs (Decidable True)
  | .nonSequence => inferInstanceAs (Decidable True)

/-- `CarSequencingProblem.evaluate_solution` on an arbitrary Python
candidate value: the same code path as `evaluate_solution`, additionally
modelling the failure points that only non-integer elements can reach —
`sorted(solution)` raising `TypeError` on an unorderable element, and
`initial_sequence[solution[i]]` raising `TypeError` on a non-int index
(a raised exception is `none`). -/
def evaluate_solution_py (p : CarSequencingProblem) (solution : PyObj) :
    Option Int :=
  match solution with
  | .list xs | .tuple xs =>
    if (xs.length : Int) ≠ p.nb_positions then some PENALTY
    else
      match sortedPy? xs with
      | none => none
      | some ys =>
        if pyEqList ys (rangeList p.nb_positions.toNat) = false then
          some PENALTY
        else do
          let sequence ← xs.mapM (pyIndex? p.initial_sequence)
          (List.range p.nb_options.toNat).foldlM (optionTotal? p sequence) 0
  | _ => some PENALTY

/-! ## The instance loader `_load_instance`, after file reading -/

/-- The two exceptions `_load_instance` can raise once the token list is
in hand: `StopIteration` from `next(it)` on an exhausted stream, and the
`ValueError` for the car-count sum mismatch. -/
inductive LoadError where
  | streamExhausted
  | sumMismatch
deriving DecidableEq, Repr

/-- The data read for one class: the car count and the option flags
(`next(it) == 1`). -/
structure ClassData where
  count : Int
  opts : List Bool
deriving DecidableEq, Repr

deriving instance DecidableEq for Except

/-- `next(it)` on the token stream. -/
def nextTok : List Int → Except LoadError (Int × List Int)
  | [] => .error .streamExhausted
  | x :: rest => .ok (x, rest)

/-- `[next(it) for _ in range(n)]`; a raised `StopIteration` propagates. -/
def readN : Nat → List Int → Except LoadError (List Int × List Int)
  | 0, s => .ok ([], s)
  | n + 1, s =>
    match nextTok s with
    | .error e => .error e
    | .ok (x, s1) =>
      match readN n s1 with
      | .error e => .error e
      | .ok (xs, s2) => .ok (x :: xs, s2)

/-- The `for c in range(nb_classes)` loop of `_load_instance`: skip the
class-index token, read the car count, read `nb_options` binary option
indicators (`next(it) == 1`); a raised exception propagates. -/
def readClasses (k : Nat) : Nat → List Int → Except LoadError (List ClassData × List Int)
  | 0, s => .ok ([], s)
  | n + 1, s =>
    match nextTok s with
    | .error e => .error e
    | .ok (_, s1) =>
      match nextTok s1 with
      | .error e => .error e
      | .ok (count, s2) =>
        match readN k s2 with
        | .error e => .error e
        | .ok (optToks, s3) =>
          match readClasses k n s3 with
          | .error e => .error e
          | .ok (rest, s4) =>
            .ok ({ count := count, opts := optToks.map (· == 1) } :: rest, s4)

/-- Building `initial_sequence`: class index `i` appended `count` times for
each class in order (`for _ in range(count)` appends nothing for a
non-positive count). -/
def initialSeqOf (i : Nat) : List ClassData → List Int
  | [] => []
  | cd :: rest => List.replicate cd.count.toNat (i : Int) ++ initialSeqOf (i + 1) rest

/-- `CarSequencingProblem._load_instance` on the list of integers read from
the file: header (`nb_positions`, `nb_options`, `nb_classes`), the two
per-option lists, the per-class blocks, then the check
`len(initial_sequence) != nb_positions`.  Tokens left over after the last
class block are never read. -/
def load_instance (data : List Int) : Except LoadError CarSequencingProblem :=
  match nextTok data with
  | .error e => .error e
  | .ok (nb_positions, s1) =>
    match nextTok s1 with
    | .error e => .error e
    | .ok (nb_options, s2) =>
      match nextTok s2 with
      | .error e => .error e
      | .ok (nb_classes, s3) =>
        match readN nb_options.toNat s3 with
        | .error e => .error e
        | .ok (maxes, s4) =>
          match readN nb_options.toNat s4 with
          | .error e => .error e
          | .ok (wins, s5) =>
            match readClasses nb_options.toNat nb_classes.toNat s5 with
            | .error e => .error e
            | .ok (classes, _) =>
              if ((initialSeqOf 0 classes).length : Int) = nb_positions then
                .ok { nb_positions := nb_positions, nb_options := nb_options,
                      max_cars_per_window := maxes, window_size := wins,
                      options := classes.map ClassData.opts,
                      initial_sequence := initialSeqOf 0 classes }
              else
                .error .sumMismatch

/-- Pure description of the class blocks `readClasses` reads from a
sufficiently long stream: per class block, the car count is the second
token and the option flags are the following `k` tokens. -/
def classesPure (k : Nat) : Nat → List Int → List ClassData
  | 0, _ => []
  | n + 1, s =>
    { count := s.getD 1 0, opts := ((s.drop 2).take k).map (· == 1) }
      :: classesPure k n ((s.drop 2).drop k)

/-- The concrete scenario from the specification: 4 positions, one option
with window size 2 and limit 1, class 0 requires the option, class 1 does
not. -/
def exInstance : CarSequencingProblem :=
  { nb_positions := 4, nb_options := 1, max_cars_per_window := [1],
    window_size := [2], options := [[true], [false]],
    initial_sequence := [0, 0, 1, 1] }

/-- An instance whose (negative) per-option maximum makes the legitimate
score of a valid candidate reach exactly the sentinel value `1e9`. -/
def collisionInstance : CarSequencingProblem :=
  { nb_positions := 1, nb_options := 1,
    max_cars_per_window := [-1000000000],
    window_size := [1], options := [[false]], initial_sequence := [0] }

/-- An instance whose only option has a window larger than the number of
positions. -/
def bigWindowInstance : CarSequencingProblem :=
  { nb_positions := 2, nb_options := 1, max_cars_per_window := [0],
    window_size := [5], options := [[true]], initial_sequence := [0, 0] }

/-! ## Generic helper lemmas -/

theorem foldlM_eq_some {α β : Type} (f : β → α → Option β) (g : β → α → β)
    (l : List α) (h : ∀ b a, a ∈ l → f b a = some (g b a)) :
    ∀ b, l.foldlM f b = some (l.foldl g b) := by
  induction l with
  | nil => intro b; rfl
  | cons a l ih =>
    intro b
    rw [List.foldlM_cons, h b a (List.mem_cons_self a l)]
    show some (g b a) >>= (fun x => l.foldlM f x) = _
    rw [List.foldl_cons]
    simpa using ih (fun b x hx => h b x (List.mem_cons_of_mem a hx)) (g b a)

theorem mapM_option_eq_some {α β : Type} (f : α → Option β) (g : α → β)
    (l : List α) (h : ∀ a ∈ l, f a = some (g a)) :
    l.mapM f = some (l.map g) := by
  induction l with
  | nil => rfl
  | cons a l ih =>
    rw [List.mapM_cons, h a (List.mem_cons_self a l),
      ih (fun x hx => h x (List.mem_cons_of_mem a hx))]
    rfl

theorem foldl_count {α : Type} (bf : α → Bool) (l : List α) :
    ∀ acc : Nat, l.foldl (fun c k => if bf k then c + 1 else c) acc
      = acc + (l.filter bf).length := by
  induction l with
  | nil => intro acc; simp
  | cons a l ih =>
    intro acc
    cases hb : bf a
    · simp [List.filter_cons, hb, ih]
    · simp [List.filter_cons, hb, ih]
      omega

theorem foldl_add {α : Type} (f : α → Int) (l : List α) :
    ∀ acc : Int, l.foldl (fun a x => a + f x) acc = acc + (l.map f).sum := by
  induction l with
  | nil => intro acc; simp
  | cons a l ih =>
    intro acc
    rw [List.foldl_cons, List.map_cons, List.sum_cons, ih (acc + f a)]
    ring

theorem pyGet?_eq_getD {α : Type} (l : List α) (i : Int) (d : α)
    (h0 : 0 ≤ i) (h1 : i.toNat < l.length) :
    pyGet? l i = some (l.getD i.toNat d) := by
  have hxne : ¬ i < 0 := by omega
  simp only [pyGet?, hxne, if_false]
  rw [dif_pos ⟨h0, h1⟩, List.getD_eq_getElem l d h1]
  rfl

/-! ## The permutation validation check -/

theorem rangeList_length (n : Nat) : (rangeList n).length = n := by
  simp [rangeList]

theorem mem_rangeList {n : Nat} {x : Int} :
    x ∈ rangeList n ↔ 0 ≤ x ∧ x.toNat < n := by
  simp only [rangeList, List.mem_map, List.mem_range]
  constructor
  · rintro ⟨k, hk, rfl⟩
    constructor
    · exact Int.natCast_nonneg k
    · simpa using hk
  · rintro ⟨h0, h1⟩
    exact ⟨x.toNat, h1, Int.toNat_of_nonneg h0⟩

theorem sorted_rangeList (n : Nat) : List.Sorted (· ≤ ·) (rangeList n) := by
  unfold rangeList
  rw [List.Sorted, List.pairwise_map]
  exact (List.sorted_le_range n).imp (fun h => Nat.cast_le.mpr h)

theorem pySorted_eq_rangeList_iff (n : Nat) (xs : List Int) :
    pySorted xs = rangeList n ↔ xs.Perm (rangeList n) := by
  constructor
  · intro h
    rw [← h]
    exact (List.perm_insertionSort _ xs).symm
  · intro h
    exact List.eq_of_perm_of_sorted ((List.perm_insertionSort _ xs).trans h)
      (List.sorted_insertionSort _ xs) (sorted_rangeList n)

theorem pyGet?_natIdx {α : Type} (l : List α) (o : Nat) (d : α)
    (h : o < l.length) : pyGet? l (o : Int) = some (l.getD o d) := by
  have h2 : ((o : Int)).toNat < l.length := by simpa using h
  have := pyGet?_eq_getD l (o : Int) d (by omega) h2
  simpa using this

/-! ## Characterizing the evaluator on in-bounds data -/

theorem windowCount?_eq (p : CarSequencingProblem) (sequence : List Int)
    (o j w : Nat) (hjw : j + w ≤ sequence.length)
    (hcls : ∀ c ∈ sequence, 0 ≤ c ∧ c.toNat < p.options.length)
    (hrow : ∀ row ∈ p.options, o < row.length) :
    windowCount? p sequence o j w =
      some (((List.range w).filter
        (fun k => optRequired p (sequence.getD (j + k) 0) o)).length) := by
  unfold windowCount?
  rw [foldlM_eq_some _
    (fun count k => if optRequired p (sequence.getD (j + k) 0) o
      then count + 1 else count) _ ?_ 0]
  · rw [foldl_count]
    simp
  · intro b k hk
    have hk' : k < w := List.mem_range.mp hk
    have hjk : j + k < sequence.length := by omega
    rw [pyGet?_natIdx sequence (j + k) 0 hjk]
    simp only [Option.bind_eq_bind, Option.some_bind]
    have hcm : sequence.getD (j + k) 0 ∈ sequence := by
      rw [List.getD_eq_getElem _ _ hjk]
      exact List.getElem_mem hjk
    obtain ⟨hc0, hclen⟩ := hcls _ hcm
    rw [pyGet?_eq_getD p.options _ [] hc0 hclen]
    simp only [Option.bind_eq_bind, Option.some_bind]
    have hrm : p.options.getD (sequence.getD (j + k) 0).toNat [] ∈ p.options := by
      rw [List.getD_eq_getElem _ _ hclen]
      exact List.getElem_mem hclen
    rw [pyGet?_natIdx _ o false (hrow _ hrm)]
    simp only [Option.some_bind, optRequired]
    rfl

theorem optionTotal?_eq (p : CarSequencingProblem) (sequence : List Int)
    (o : Nat) (ho : o < p.window_size.length)
    (ho2 : o < p.max_cars_per_window.length)
    (hw : 0 < p.window_size.getD o 0) (hp : 0 ≤ p.nb_positions)
    (hlen : sequence.length = p.nb_positions.toNat)
    (hcls : ∀ c ∈ sequence, 0 ≤ c ∧ c.toNat < p.options.length)
    (hrow : ∀ row ∈ p.options, o < row.length) :
    ∀ acc, optionTotal? p sequence acc o
      = some (acc + optionScore p sequence o) := by
  intro acc
  unfold optionTotal?
  rw [pyGet?_natIdx p.window_size o 0 ho]
  simp only [Option.bind_eq_bind, Option.some_bind]
  rw [pyGet?_natIdx p.max_cars_per_window o 0 ho2]
  simp only [Option.bind_eq_bind, Option.some_bind]
  have hrange : (p.nb_positions - p.window_size.getD o 0 + 1).toNat
      = p.nb_positions.toNat + 1 - (p.window_size.getD o 0).toNat := by omega
  rw [hrange]
  rw [foldlM_eq_some _
    (fun total j => total + max 0 ((specWindowCount p sequence o j : Int)
      - p.max_cars_per_window.getD o 0)) _ ?_ acc]
  · rw [foldl_add]
    rfl
  · intro b jj hjj
    have hj : jj < p.nb_positions.toNat + 1 - (p.window_size.getD o 0).toNat :=
      List.mem_range.mp hjj
    rw [windowCount?_eq p sequence o jj (p.window_size.getD o 0).toNat
      (by omega) hcls hrow]
    simp only [Option.bind_eq_bind, Option.some_bind]
    congr 1
    set c : Nat := ((List.range (p.window_size.getD o 0).toNat).filter
      (fun k => optRequired p (sequence.getD (jj + k) 0) o)).length with hcdef
    show (if (c : Int) > p.max_cars_per_window.getD o 0
            then b + ((c : Int) - p.max_cars_per_window.getD o 0) else b)
        = b + max 0 ((specWindowCount p sequence o jj : Int)
            - p.max_cars_per_window.getD o 0)
    have hcs : specWindowCount p sequence o jj = c := rfl
    rw [hcs]
    by_cases hgt : (c : Int) > p.max_cars_per_window.getD o 0
    · rw [if_pos hgt]
      omega
    · rw [if_neg hgt]
      omega

theorem evaluate_tuple_eq_list (p : CarSequencingProblem) (xs : List Int) :
    evaluate_solution p (.tuple xs) = evaluate_solution p (.list xs) := rfl

theorem evaluate_valid (p : CarSequencingProblem) (hinv : Invariants p)
    (xs : List Int) (hperm : xs.Perm (rangeList p.nb_positions.toNat)) :
    evaluate_solution p (.list xs)
      = some (specObjective p (reconstruct p xs)) := by
  obtain ⟨hp, ho, hmax, hwin, hwpos, hrows, hini, hcls⟩ := hinv
  have hn : xs.length = p.nb_positions.toNat := by
    rw [hperm.length_eq, rangeList_length]
  have hinitlen : p.initial_sequence.length = p.nb_positions.toNat := by omega
  simp only [evaluate_solution]
  rw [if_neg (by omega : ¬ ((xs.length : Int) ≠ p.nb_positions))]
  rw [if_neg (by simp [(pySorted_eq_rangeList_iff p.nb_positions.toNat xs).mpr
    hperm])]
  rw [mapM_option_eq_some (pyGet? p.initial_sequence)
    (fun i => p.initial_sequence.getD i.toNat 0) xs ?hmap]
  case hmap =>
    intro i hi
    have hmem := (hperm.mem_iff).mp hi
    rw [mem_rangeList] at hmem
    exact pyGet?_eq_getD _ _ _ hmem.1 (by omega)
  simp only [Option.bind_eq_bind, Option.some_bind]
  have hseq_len : (reconstruct p xs).length = p.nb_positions.toNat := by
    simp [reconstruct, hn]
  have hseq_cls : ∀ c ∈ reconstruct p xs, 0 ≤ c ∧ c.toNat < p.options.length := by
    intro c hcmem
    simp only [reconstruct, List.mem_map] at hcmem
    obtain ⟨i, hi, rfl⟩ := hcmem
    have hmem := hperm.mem_iff.mp hi
    rw [mem_rangeList] at hmem
    have hidx : i.toNat < p.initial_sequence.length := by omega
    rw [List.getD_eq_getElem _ _ hidx]
    exact hcls _ (List.getElem_mem hidx)
  rw [show List.map (fun i => p.initial_sequence.getD i.toNat 0) xs
    = reconstruct p xs from rfl]
  rw [foldlM_eq_some (optionTotal? p (reconstruct p xs))
    (fun acc o => acc + optionScore p (reconstruct p xs) o) _ ?_ 0]
  · rw [foldl_add]
    simp [specObjective]
  · intro b oo hoo
    have hoo' : oo < p.nb_options.toNat := List.mem_range.mp hoo
    have hwmem : p.window_size.getD oo 0 ∈ p.window_size := by
      rw [List.getD_eq_getElem _ _ (by omega)]
      exact List.getElem_mem (by omega)
    exact optionTotal?_eq p (reconstruct p xs) oo (by omega) (by omega)
      (hwpos _ hwmem) (by omega) hseq_len hseq_cls
      (fun row hr => by rw [hrows row hr]; omega) b

theorem evaluate_invalid (p : CarSequencingProblem) (xs : List Int)
    (h : ¬ xs.Perm (rangeList p.nb_positions.toNat)) :
    evaluate_solution p (.list xs) = some PENALTY := by
  simp only [evaluate_solution]
  by_cases hl : (xs.length : Int) ≠ p.nb_positions
  · rw [if_pos hl]
  · rw [if_neg hl]
    rw [if_pos (fun hEq =>
      h ((pySorted_eq_rangeList_iff p.nb_positions.toNat xs).mp hEq))]

/-! ## Characterizing the loader -/

theorem readN_eq (n : Nat) (s : List Int) :
    readN n s = if n ≤ s.length then .ok (s.take n, s.drop n)
      else .error .streamExhausted := by
  induction n generalizing s with
  | zero => simp [readN]
  | succ n ih =>
    cases s with
    | nil => simp [readN, nextTok]
    | cons x t =>
      simp only [readN, nextTok]
      rw [ih t]
      by_cases h : n ≤ t.length
      · rw [if_pos h, if_pos (by simpa using Nat.succ_le_succ h)]
        rfl
      · rw [if_neg h, if_neg (by simp only [List.length_cons]; omega)]

theorem readClasses_eq (k n : Nat) (s : List Int) :
    readClasses k n s =
      if n * (2 + k) ≤ s.length
      then .ok (classesPure k n s, s.drop (n * (2 + k)))
      else .error .streamExhausted := by
  induction n generalizing s with
  | zero => simp [readClasses, classesPure]
  | succ n ih =>
    have hmul : (n + 1) * (2 + k) = n * (2 + k) + (2 + k) := by
      rw [Nat.succ_mul]
    cases s with
    | nil =>
      rw [if_neg (by simp only [List.length_nil, hmul]; omega)]
      simp [readClasses, nextTok]
    | cons x t =>
      cases t with
      | nil =>
        rw [if_neg (by simp only [List.length_cons, List.length_nil, hmul]; omega)]
        simp [readClasses, nextTok]
      | cons y u =>
        by_cases hk : k ≤ u.length
        · have L1 : readClasses k (n + 1) (x :: y :: u)
              = (match readClasses k n (u.drop k) with
                 | .error e => .error e
                 | .ok (rest, s4) =>
                   .ok ((⟨y, (u.take k).map (· == 1)⟩ : ClassData) :: rest, s4)) := by
            simp only [readClasses, nextTok, readN_eq]
            rw [if_pos hk]
          rw [L1, ih (u.drop k)]
          by_cases hrec : n * (2 + k) ≤ (u.drop k).length
          · have hcond : (n + 1) * (2 + k) ≤ (x :: y :: u).length := by
              simp only [List.length_drop] at hrec
              simp only [List.length_cons]
              rw [hmul]
              omega
            have hstream : (x :: y :: u).drop ((n + 1) * (2 + k))
                = (u.drop k).drop (n * (2 + k)) := by
              rw [List.drop_drop]
              rw [show (n + 1) * (2 + k) = (k + n * (2 + k)) + 1 + 1 from by
                rw [hmul]; omega]
              rfl
            rw [if_pos hrec, if_pos hcond, hstream]
            rfl
          · have hcond : ¬ ((n + 1) * (2 + k) ≤ (x :: y :: u).length) := by
              simp only [List.length_drop] at hrec
              simp only [List.length_cons]
              rw [hmul]
              omega
            rw [if_neg hrec, if_neg hcond]
        · have hcond : ¬ ((n + 1) * (2 + k) ≤ (x :: y :: u).length) := by
            simp only [List.length_cons]
            rw [hmul]
            omega
          rw [if_neg hcond]
          simp only [readClasses, nextTok, readN_eq]
          rw [if_neg hk]

theorem load_instance_eq (nbp nbo nbc : Int) (rest : List Int) :
    load_instance (nbp :: nbo :: nbc :: rest) =
      if 2 * nbo.toNat + nbc.toNat * (2 + nbo.toNat) ≤ rest.length then
        (if ((initialSeqOf 0 (classesPure nbo.toNat nbc.toNat
              (rest.drop (2 * nbo.toNat)))).length : Int) = nbp then
          .ok { nb_positions := nbp, nb_options := nbo,
                max_cars_per_window := rest.take nbo.toNat,
                window_size := (rest.drop nbo.toNat).take nbo.toNat,
                options := (classesPure nbo.toNat nbc.toNat
                  (rest.drop (2 * nbo.toNat))).map ClassData.opts,
                initial_sequence := initialSeqOf 0 (classesPure nbo.toNat
                  nbc.toNat (rest.drop (2 * nbo.toNat))) }
        else .error .sumMismatch)
      else .error .streamExhausted := by
  by_cases H : 2 * nbo.toNat + nbc.toNat * (2 + nbo.toNat) ≤ rest.length
  · have h1 : nbo.toNat ≤ rest.length := by omega
    have h2 : nbo.toNat ≤ rest.length - nbo.toNat := by omega
    have h3 : nbc.toNat * (2 + nbo.toNat)
        ≤ rest.length - (nbo.toNat + nbo.toNat) := by omega
    rw [if_pos H]
    simp only [load_instance, nextTok, readN_eq, readClasses_eq,
      List.length_drop, h1, h2, h3, if_true, List.drop_drop, Nat.two_mul]
  · rw [if_neg H]
    by_cases h1 : nbo.toNat ≤ rest.length
    · by_cases h2 : nbo.toNat ≤ rest.length - nbo.toNat
      · have h3 : ¬ (nbc.toNat * (2 + nbo.toNat)
            ≤ rest.length - nbo.toNat - nbo.toNat) := by omega
        simp only [load_instance, nextTok, readN_eq, readClasses_eq,
          List.length_drop, h1, h2, if_true, h3, if_false]
      · simp only [load_instance, nextTok, readN_eq, List.length_drop,
          h1, if_true, h2, if_false]
    · simp only [load_instance, nextTok, readN_eq, h1, if_false]

theorem initialSeqOf_length (cls : List ClassData) :
    ∀ i : Nat, (initialSeqOf i cls).length
      = (cls.map (fun cd => cd.count.toNat)).sum := by
  induction cls with
  | nil => intro i; rfl
  | cons cd rest ih =>
    intro i
    simp [initialSeqOf, ih (i + 1)]

theorem mem_initialSeqOf (cls : List ClassData) :
    ∀ (i : Nat) (x : Int), x ∈ initialSeqOf i cls → (i : Int) ≤ x := by
  induction cls with
  | nil =>
    intro i x h
    simp [initialSeqOf] at h
  | cons cd rest ih =>
    intro i x h
    simp only [initialSeqOf, List.mem_append] at h
    rcases h with h | h
    · rw [List.eq_of_mem_replicate h]
    · have h2 := ih (i + 1) x h
      push_cast at h2
      omega

theorem count_initialSeqOf (cls : List ClassData) :
    ∀ (i c : Nat), c < cls.length →
      (initialSeqOf i cls).count ((i + c : Nat) : Int)
        = ((cls.getD c ⟨0, []⟩).count).toNat := by
  induction cls with
  | nil =>
    intro i c hc
    simp at hc
  | cons cd rest ih =>
    intro i c hc
    cases c with
    | zero =>
      have hz : (initialSeqOf (i + 1) rest).count ((i : Nat) : Int) = 0 := by
        rw [List.count_eq_zero]
        intro hmem
        have h2 := mem_initialSeqOf rest (i + 1) _ hmem
        push_cast at h2
        omega
      simp only [initialSeqOf, List.count_append, Nat.add_zero, hz,
        List.count_replicate_self, List.getD_cons_zero]
    | succ c =>
      have h1 : (List.replicate cd.count.toNat ((i : Nat) : Int)).count
          ((i + (c + 1) : Nat) : Int) = 0 := by
        rw [List.count_replicate]
        rw [if_neg (by simp only [beq_iff_eq]; push_cast; omega)]
      have h2 := ih (i + 1) c (by simpa using hc)
      simp only [initialSeqOf, List.count_append, h1, Nat.zero_add]
      rw [show ((i + (c + 1) : Nat) : Int) = (((i + 1) + c : Nat) : Int) from by
        push_cast; ring]
      rw [h2, List.getD_cons_succ]

theorem sum_count_toNat (cls : List ClassData) :
    (∀ cd ∈ cls, 0 ≤ cd.count) →
    (((cls.map (fun cd => cd.count.toNat)).sum : Nat) : Int)
      = (cls.map ClassData.count).sum := by
  induction cls with
  | nil =>
    intro h
    rfl
  | cons cd rest ih =>
    intro h
    simp only [List.map_cons, List.sum_cons]
    rw [Nat.cast_add, Int.toNat_of_nonneg (h cd (List.mem_cons_self cd rest)),
      ih (fun x hx => h x (List.mem_cons_of_mem cd hx))]

theorem classesPure_length (k n : Nat) : ∀ s, (classesPure k n s).length = n := by
  induction n with
  | zero =>
    intro s
    rfl
  | succ n ih =>
    intro s
    simp [classesPure, ih]

theorem classesPure_take (k : Nat) : ∀ (n : Nat) (l : List Int) (m : Nat),
    n * (2 + k) ≤ m → classesPure k n (l.take m) = classesPure k n l := by
  intro n
  induction n with
  | zero =>
    intro l m h
    rfl
  | succ n ih =>
    intro l m h
    have hm : n * (2 + k) + (2 + k) ≤ m := by rw [Nat.succ_mul] at h; omega
    simp only [classesPure]
    congr 1
    · congr 1
      · show (l.take m).getD 1 0 = l.getD 1 0
        simp [List.getD_eq_getElem?_getD, List.getElem?_take,
          show (1 : Nat) < m from by omega]
      · show (((l.take m).drop 2).take k).map (· == 1)
            = ((l.drop 2).take k).map (· == 1)
        rw [List.drop_take, List.take_take, show k ⊓ (m - 2) = k from by omega]
    · rw [List.drop_take, List.drop_take]
      exact ih ((l.drop 2).drop k) (m - 2 - k) (by omega)

/-! ## Shared consequences for the claim theorems -/

theorem sentinel_iff_list (p : CarSequencingProblem) (hinv : Invariants p)
    (xs : List Int) :
    evaluate_solution p (.list xs) = some PENALTY ↔
      ¬ IsValidPerm p.nb_positions.toNat xs
        ∨ specObjective p (reconstruct p xs) = PENALTY := by
  by_cases hv : IsValidPerm p.nb_positions.toNat xs
  · rw [evaluate_valid p hinv xs hv]
    constructor
    · intro h
      exact Or.inr (by simpa using h)
    · rintro (h | h)
      · exact absurd hv h
      · rw [h]
  · rw [evaluate_invalid p xs hv]
    simp [hv]

/-! ## Arbitrary-element candidates: agreement on integer elements -/

theorem pyEqList_map_int (xs ys : List Int) :
    pyEqList (xs.map PyVal.int) ys = true ↔ xs = ys := by
  induction xs generalizing ys with
  | nil => cases ys <;> simp [pyEqList]
  | cons a xs ih =>
    cases ys with
    | nil => simp [pyEqList]
    | cons b ys => simp [pyEqList, pyEqInt, ih]

theorem orderedInsert_map_int (a : Int) (l : List Int) :
    List.orderedInsert (fun u v => PyVal.val u ≤ PyVal.val v) (PyVal.int a)
        (l.map PyVal.int)
      = (List.orderedInsert (· ≤ ·) a l).map PyVal.int := by
  induction l with
  | nil => rfl
  | cons b l ih =>
    simp only [List.map_cons, List.orderedInsert]
    by_cases hab : a ≤ b
    · rw [if_pos (show PyVal.val (PyVal.int a) ≤ PyVal.val (PyVal.int b) from by
        simp only [PyVal.val]; exact_mod_cast hab), if_pos hab,
        List.map_cons, List.map_cons]
    · rw [if_neg (show ¬ PyVal.val (PyVal.int a) ≤ PyVal.val (PyVal.int b) from by
        simp only [PyVal.val]; exact_mod_cast hab), if_neg hab,
        List.map_cons, ih]

theorem insertionSort_map_int (l : List Int) :
    List.insertionSort (fun u v => PyVal.val u ≤ PyVal.val v)
        (l.map PyVal.int)
      = (List.insertionSort (· ≤ ·) l).map PyVal.int := by
  induction l with
  | nil => rfl
  | cons a l ih =>
    simp only [List.map_cons, List.insertionSort, ih, orderedInsert_map_int]

theorem mapM_option_map {α β γ : Type} (g : α → β) (f : β → Option γ)
    (l : List α) : (l.map g).mapM f = l.mapM (fun a => f (g a)) := by
  induction l with
  | nil => rfl
  | cons a l ih => rw [List.map_cons, List.mapM_cons, List.mapM_cons, ih]

theorem sortedPy?_map_int (xs : List Int) :
    sortedPy? (xs.map PyVal.int) = some ((pySorted xs).map PyVal.int) := by
  unfold sortedPy?
  by_cases h : (xs.map PyVal.int).length ≤ 1
  · rw [if_pos h]
    have hx : pySorted xs = xs := by
      rw [List.length_map] at h
      rcases xs with _ | ⟨a, _ | ⟨b, t⟩⟩
      · rfl
      · rfl
      · simp at h
    rw [hx]
  · rw [if_neg h,
      if_pos (by simp [List.all_eq_true, PyVal.orderable]
        : (xs.map PyVal.int).all PyVal.orderable = true),
      insertionSort_map_int]
    rfl

theorem evaluate_py_tuple_eq_list (p : CarSequencingProblem)
    (xs : List PyVal) :
    evaluate_solution_py p (.tuple xs) = evaluate_solution_py p (.list xs) :=
  rfl

theorem evaluate_py_map_int (p : CarSequencingProblem) (xs : List Int) :
    evaluate_solution_py p (.list (xs.map PyVal.int))
      = evaluate_solution p (.list xs) := by
  by_cases hl : (xs.length : Int) ≠ p.nb_positions
  · simp only [evaluate_solution_py, evaluate_solution, List.length_map]
    rw [if_pos hl, if_pos hl]
  · have L : evaluate_solution_py p (.list (xs.map PyVal.int))
        = (if pyEqList ((pySorted xs).map PyVal.int)
              (rangeList p.nb_positions.toNat) = false
           then some PENALTY
           else do
             let sequence ← (xs.map PyVal.int).mapM (pyIndex? p.initial_sequence)
             (List.range p.nb_options.toNat).foldlM
               (optionTotal? p sequence) 0) := by
      simp only [evaluate_solution_py, List.length_map]
      rw [if_neg hl, sortedPy?_map_int]
    have R : evaluate_solution p (.list xs)
        = (if pySorted xs ≠ rangeList p.nb_positions.toNat then some PENALTY
           else do
             let sequence ← xs.mapM (pyGet? p.initial_sequence)
             (List.range p.nb_options.toNat).foldlM
               (optionTotal? p sequence) 0) := by
      simp only [evaluate_solution]
      rw [if_neg hl]
    rw [L, R]
    by_cases hs : pySorted xs = rangeList p.nb_positions.toNat
    · rw [(pyEqList_map_int (pySorted xs)
        (rangeList p.nb_positions.toNat)).mpr hs]
      rw [if_neg (by simp), if_neg (fun hcon => hcon hs), mapM_option_map]
      rfl
    · rw [Bool.eq_false_iff.mpr (fun htrue => hs ((pyEqList_map_int
        (pySorted xs) (rangeList p.nb_positions.toNat)).mp htrue))]
      rw [if_pos rfl, if_pos hs]

theorem exists_map_int (xs : List PyVal) (h : ∀ v ∈ xs, v.isInt = true) :
    ∃ ys : List Int, xs = ys.map PyVal.int := by
  induction xs with
  | nil => exact ⟨[], rfl⟩
  | cons a l ih =>
    obtain ⟨ys, hys⟩ := ih (fun v hv => h v (List.mem_cons_of_mem a hv))
    have ha := h a (List.mem_cons_self a l)
    cases a with
    | int n => exact ⟨n :: ys, by rw [List.map_cons, ← hys]⟩
    | float q => simp [PyVal.isInt] at ha
    | obj => simp [PyVal.isInt] at ha

/-! ## The claims -/

/-- C1: for every instance satisfying the data-model invariants and every
candidate that is a valid permutation of `[0, position_count)`,
`evaluate_solution` returns exactly the reference objective — the sum over
every option `o` and every window start `j` in
`[0, position_count - window_size[o]]` of `max 0 (count - max_per_window[o])`,
with `count` the number of positions of the window whose reconstructed class
`sequence[k] = initial_sequence[candidate[k]]` requires option `o`;
overlapping windows each counted separately. -/
theorem C1_evaluate_matches_reference (p : CarSequencingProblem)
    (hinv : Invariants p) (xs : List Int)
    (hperm : IsValidPerm p.nb_positions.toNat xs) :
    evaluate_solution p (.list xs)
      = some (specObjective p (reconstruct p xs)) :=
  evaluate_valid p hinv xs hperm

/-- Witness for C1 on the specification's concrete scenario. -/
theorem C1_witness :
    Invariants exInstance
      ∧ IsValidPerm exInstance.nb_positions.toNat [0, 1, 2, 3]
      ∧ evaluate_solution exInstance (.list [0, 1, 2, 3])
          = some (specObjective exInstance (reconstruct exInstance [0, 1, 2, 3])) :=
  ⟨by decide, by decide,
    C1_evaluate_matches_reference exInstance (by decide) [0, 1, 2, 3] (by decide)⟩

/-- C2 counterexample: an instance satisfying the data-model invariants (its
per-option maximum is the integer `-1e9`; the data model only requires an
integer) on which the valid permutation `[0]` is scored, and its legitimate
score `0 - (-1e9) = 1e9` is exactly the sentinel — so `evaluate` returns the
sentinel although the candidate passes structural validation, refuting the
"only if" direction of the claim. -/
theorem C2_counterexample :
    Invariants collisionInstance
      ∧ IsValidPerm collisionInstance.nb_positions.toNat [0]
      ∧ evaluate_solution collisionInstance (.list [0]) = some PENALTY :=
  ⟨by decide, by decide, by decide⟩

/-- C2 (amended): for every instance satisfying the invariants,
`evaluate_solution` returns the sentinel iff the candidate is not a
list/tuple, or fails the length/sorted-permutation validation, or passes
validation but its computed window score itself equals `1e9` (the sentinel
value is not reserved: a legitimately scored candidate can produce it). -/
theorem C2_sentinel_iff (p : CarSequencingProblem) (hinv : Invariants p)
    (cand : PyCandidate) :
    evaluate_solution p cand = some PENALTY ↔
      (match cand with
       | .list xs | .tuple xs =>
           ¬ IsValidPerm p.nb_positions.toNat xs
             ∨ specObjective p (reconstruct p xs) = PENALTY
       | _ => True) := by
  cases cand with
  | list xs => exact sentinel_iff_list p hinv xs
  | tuple xs =>
    rw [evaluate_tuple_eq_list]
    exact sentinel_iff_list p hinv xs
  | otherSeq xs => simp [evaluate_solution]
  | nonSequence => simp [evaluate_solution]

/-- Witness for C2 (amended) on a short (invalid) candidate. -/
theorem C2_witness :
    evaluate_solution exInstance (.list [0, 1, 2]) = some PENALTY ↔
      (match PyCandidate.list [0, 1, 2] with
       | .list xs | .tuple xs =>
           ¬ IsValidPerm exInstance.nb_positions.toNat xs
             ∨ specObjective exInstance (reconstruct exInstance xs) = PENALTY
       | _ => True) :=
  C2_sentinel_iff exInstance (by decide) (.list [0, 1, 2])

/-- Totality of the evaluator over integer-element candidates: helper for
the amended C3. -/
theorem evaluate_total_int (p : CarSequencingProblem) (hinv : Invariants p)
    (cand : PyCandidate) : (evaluate_solution p cand).isSome := by
  cases cand with
  | list xs =>
    by_cases hv : xs.Perm (rangeList p.nb_positions.toNat)
    · rw [evaluate_valid p hinv xs hv]
      rfl
    · rw [evaluate_invalid p xs hv]
      rfl
  | tuple xs =>
    rw [evaluate_tuple_eq_list]
    by_cases hv : xs.Perm (rangeList p.nb_positions.toNat)
    · rw [evaluate_valid p hinv xs hv]
      rfl
    · rw [evaluate_invalid p xs hv]
      rfl
  | otherSeq xs => rfl
  | nonSequence => rfl

/-- C3 counterexample: on an instance satisfying the data-model
invariants, two sequence-like candidates make evaluation raise
(`none`): the list `[0.0, 1.0]` passes the length check and the
sorted/range comparison (`0.0 == 0` and `1.0 == 1` in Python) and then
`initial_sequence[solution[i]]` raises `TypeError` because a float is not
a valid list index; and the list `[0, None]` makes `sorted(solution)`
itself raise `TypeError` because its elements are unorderable.  So the
evaluator is not total over arbitrary sequence-like candidates. -/
theorem C3_raises_counterexample :
    Invariants bigWindowInstance
      ∧ evaluate_solution_py bigWindowInstance
          (.list [PyVal.float 0, PyVal.float 1]) = none
      ∧ evaluate_solution_py bigWindowInstance
          (.list [PyVal.int 0, PyVal.obj]) = none :=
  ⟨by decide, by decide, by decide⟩

/-- C3 (amended): for every instance satisfying the data-model
invariants, evaluation never raises on a candidate all of whose sequence
elements are Python ints — arbitrary integer contents (wrong length,
duplicates, out-of-range, negative) are absorbed into the sentinel, valid
permutations are scored, and non-list/tuple values are sentineled.
Totality does not extend to candidates with non-integer elements. -/
theorem C3_total_on_int_candidates (p : CarSequencingProblem)
    (hinv : Invariants p) (cand : PyObj) (hall : cand.allInt) :
    (evaluate_solution_py p cand).isSome := by
  cases cand with
  | list xs =>
    obtain ⟨ys, rfl⟩ := exists_map_int xs hall
    rw [evaluate_py_map_int]
    exact evaluate_total_int p hinv (.list ys)
  | tuple xs =>
    obtain ⟨ys, rfl⟩ := exists_map_int xs hall
    rw [evaluate_py_tuple_eq_list, evaluate_py_map_int]
    exact evaluate_total_int p hinv (.list ys)
  | otherSeq xs => rfl
  | nonSequence => rfl

/-- Witness for C3 (amended). -/
theorem C3_total_witness :
    (evaluate_solution_py exInstance
      (.list [PyVal.int 2, PyVal.int 0, PyVal.int 3, PyVal.int 1])).isSome :=
  C3_total_on_int_candidates exInstance (by decide) _ (by decide)

/-- C4: the identity candidate `[0, 1, ..., position_count-1]` reconstructs
exactly `initial_sequence`, and its score is the reference objective
computed directly on `initial_sequence`. -/
theorem C4_identity_candidate (p : CarSequencingProblem) (hinv : Invariants p) :
    reconstruct p (rangeList p.nb_positions.toNat) = p.initial_sequence
      ∧ evaluate_solution p (.list (rangeList p.nb_positions.toNat))
          = some (specObjective p p.initial_sequence) := by
  have hlen : p.initial_sequence.length = p.nb_positions.toNat := by
    obtain ⟨hp, _, _, _, _, _, hini, _⟩ := hinv
    omega
  have hrec : reconstruct p (rangeList p.nb_positions.toNat)
      = p.initial_sequence := by
    unfold reconstruct rangeList
    rw [List.map_map]
    apply List.ext_getElem
    · simp [hlen]
    · intro i h1 h2
      simp only [List.getElem_map, List.getElem_range, Function.comp_apply,
        Int.toNat_natCast]
      rw [List.getD_eq_getElem _ _ (by omega)]
  exact ⟨hrec, by rw [evaluate_valid p hinv _ (List.Perm.refl _), hrec]⟩

/-- Witness for C4 on the concrete scenario. -/
theorem C4_witness :
    reconstruct exInstance (rangeList exInstance.nb_positions.toNat)
        = exInstance.initial_sequence
      ∧ evaluate_solution exInstance
          (.list (rangeList exInstance.nb_positions.toNat))
          = some (specObjective exInstance exInstance.initial_sequence) :=
  C4_identity_candidate exInstance (by decide)

/-- C5: an option whose window size exceeds `position_count` contributes
zero to the score of every valid permutation candidate (its window-start
range is empty), and the evaluation still succeeds — the situation is not
an error. -/
theorem C5_oversized_window (p : CarSequencingProblem) (hinv : Invariants p)
    (xs : List Int) (hperm : IsValidPerm p.nb_positions.toNat xs) (o : Nat)
    (_ho : o < p.nb_options.toNat)
    (hw : p.nb_positions < p.window_size.getD o 0) :
    optionScore p (reconstruct p xs) o = 0
      ∧ (evaluate_solution p (.list xs)).isSome := by
  constructor
  · unfold optionScore
    rw [show p.nb_positions.toNat + 1 - (p.window_size.getD o 0).toNat = 0 from by
      obtain ⟨hp, _⟩ := hinv
      omega]
    rfl
  · rw [evaluate_valid p hinv xs hperm]
    rfl

/-- Witness for C5 on an instance with window size 5 over 2 positions. -/
theorem C5_witness :
    optionScore bigWindowInstance (reconstruct bigWindowInstance [1, 0]) 0 = 0
      ∧ (evaluate_solution bigWindowInstance (.list [1, 0])).isSome :=
  C5_oversized_window bigWindowInstance (by decide) [1, 0] (by decide) 0
    (by decide) (by decide)

/-- C6: raising `max_per_window[o]` to any larger value, all else fixed,
never increases the score of a valid permutation candidate. -/
theorem C6_max_monotone (p : CarSequencingProblem) (hinv : Invariants p)
    (xs : List Int) (hperm : IsValidPerm p.nb_positions.toNat xs) (o : Nat)
    (ho : o < p.nb_options.toNat) (m2 : Int)
    (hm : p.max_cars_per_window.getD o 0 ≤ m2) :
    ∃ s1 s2,
      evaluate_solution p (.list xs) = some s1 ∧
      evaluate_solution
        { p with max_cars_per_window := p.max_cars_per_window.set o m2 }
        (.list xs) = some s2 ∧
      s2 ≤ s1 := by
  obtain ⟨hpp, ho2, hmax, hwin, hwpos, hrows, hini, hcls⟩ := hinv
  have hinvq : Invariants
      { p with max_cars_per_window := p.max_cars_per_window.set o m2 } :=
    ⟨hpp, ho2, by simpa using hmax, hwin, hwpos, hrows, hini, hcls⟩
  have h1 := evaluate_valid p ⟨hpp, ho2, hmax, hwin, hwpos, hrows, hini, hcls⟩
    xs hperm
  have h2 := evaluate_valid
    { p with max_cars_per_window := p.max_cars_per_window.set o m2 }
    hinvq xs hperm
  rw [show reconstruct
      { p with max_cars_per_window := p.max_cars_per_window.set o m2 } xs
      = reconstruct p xs from rfl] at h2
  refine ⟨_, _, h1, h2, ?_⟩
  show specObjective _ (reconstruct p xs) ≤ specObjective p (reconstruct p xs)
  unfold specObjective
  apply List.sum_le_sum
  intro i hi
  have hi2 : i < p.nb_options.toNat := List.mem_range.mp hi
  unfold optionScore
  apply List.sum_le_sum
  intro j hj
  rw [show specWindowCount
      { p with max_cars_per_window := p.max_cars_per_window.set o m2 }
      (reconstruct p xs) i j = specWindowCount p (reconstruct p xs) i j from rfl]
  rw [show ({ p with max_cars_per_window := p.max_cars_per_window.set o m2
      } : CarSequencingProblem).max_cars_per_window
      = p.max_cars_per_window.set o m2 from rfl]
  have hgetD : p.max_cars_per_window.getD i 0
      ≤ (p.max_cars_per_window.set o m2).getD i 0 := by
    by_cases hio : i = o
    · subst hio
      rw [List.getD_eq_getElem (p.max_cars_per_window.set i m2) 0
        (by rw [List.length_set]; omega), List.getElem_set_self]
      exact hm
    · rw [List.getD_eq_getElem (p.max_cars_per_window.set o m2) 0
          (by rw [List.length_set]; omega),
        List.getElem_set_ne (fun he => hio he.symm),
        List.getD_eq_getElem p.max_cars_per_window 0 (by omega)]
  exact max_le_max le_rfl (by omega)

/-- Witness for C6: raising the limit from 1 to 2 on the concrete
scenario. -/
theorem C6_witness :
    ∃ s1 s2,
      evaluate_solution exInstance (.list [0, 1, 2, 3]) = some s1 ∧
      evaluate_solution
        { exInstance with
          max_cars_per_window := exInstance.max_cars_per_window.set 0 2 }
        (.list [0, 1, 2, 3]) = some s2 ∧
      s2 ≤ s1 :=
  C6_max_monotone exInstance (by decide) [0, 1, 2, 3] (by decide) 0 (by decide)
    2 (by decide)

/-- C7 counterexample: a structured description carrying one token more
than the expected `3 + 2*nb_options + nb_classes*(2 + nb_options) = 8`
tokens (here 9 tokens, trailing token `99`) is parsed successfully — the
loader never looks at tokens after the last class block, so trailing
tokens are silently ignored, not a fatal error. -/
theorem C7_counterexample :
    load_instance [1, 1, 1, 0, 1, 0, 1, 1, 99]
        = .ok { nb_positions := 1, nb_options := 1, max_cars_per_window := [0],
                window_size := [1], options := [[true]],
                initial_sequence := [0] }
      ∧ ([1, 1, 1, 0, 1, 0, 1, 1, 99] : List Int).length
          = 3 + 2 * 1 + 1 * (2 + 1) + 1 :=
  ⟨by decide, by decide⟩

/-- C7 (amended): the loader consumes the token stream in the layout
header, per-option maximums, per-option window sizes, then per class a
skipped class-index token, a car count and the option indicators — exactly
`3 + 2*nb_options + nb_classes*(2 + nb_options)` tokens.  A stream shorter
than that is a fatal error (`StopIteration`), and this is the only way the
stream-exhausted error arises; tokens beyond that count are silently
ignored (the result equals the result on the truncated stream), not a
fatal error. -/
theorem C7_token_stream (nbp nbo nbc : Int) (rest : List Int) :
    (load_instance (nbp :: nbo :: nbc :: rest) = .error .streamExhausted
      ↔ (nbp :: nbo :: nbc :: rest).length
          < 3 + 2 * nbo.toNat + nbc.toNat * (2 + nbo.toNat))
    ∧ load_instance (nbp :: nbo :: nbc :: rest)
        = load_instance (nbp :: nbo :: nbc
            :: rest.take (2 * nbo.toNat + nbc.toNat * (2 + nbo.toNat))) := by
  constructor
  · rw [load_instance_eq]
    by_cases H : 2 * nbo.toNat + nbc.toNat * (2 + nbo.toNat) ≤ rest.length
    · rw [if_pos H]
      constructor
      · intro h
        exfalso
        split_ifs at h
        all_goals simp at h
      · intro h
        exfalso
        simp only [List.length_cons] at h
        omega
    · rw [if_neg H]
      constructor
      · intro _
        simp only [List.length_cons]
        omega
      · intro _
        rfl
  · rw [load_instance_eq, load_instance_eq]
    by_cases H : 2 * nbo.toNat + nbc.toNat * (2 + nbo.toNat) ≤ rest.length
    · have hlen2 : 2 * nbo.toNat + nbc.toNat * (2 + nbo.toNat)
          ≤ (rest.take (2 * nbo.toNat + nbc.toNat * (2 + nbo.toNat))).length := by
        rw [List.length_take]
        omega
      rw [if_pos H, if_pos hlen2]
      have e1 : (rest.take (2 * nbo.toNat + nbc.toNat
            * (2 + nbo.toNat))).take nbo.toNat = rest.take nbo.toNat := by
        rw [List.take_take, show nbo.toNat ⊓ (2 * nbo.toNat + nbc.toNat
          * (2 + nbo.toNat)) = nbo.toNat from by omega]
      have e2 : ((rest.take (2 * nbo.toNat + nbc.toNat
            * (2 + nbo.toNat))).drop nbo.toNat).take nbo.toNat
          = (rest.drop nbo.toNat).take nbo.toNat := by
        rw [List.drop_take, List.take_take, show nbo.toNat ⊓ (2 * nbo.toNat
          + nbc.toNat * (2 + nbo.toNat) - nbo.toNat) = nbo.toNat from by omega]
      have e3 : classesPure nbo.toNat nbc.toNat
            ((rest.take (2 * nbo.toNat + nbc.toNat
              * (2 + nbo.toNat))).drop (2 * nbo.toNat))
          = classesPure nbo.toNat nbc.toNat (rest.drop (2 * nbo.toNat)) := by
        rw [List.drop_take]
        exact classesPure_take nbo.toNat nbc.toNat (rest.drop (2 * nbo.toNat))
          _ (by omega)
      rw [e1, e2, e3]
    · have H2 : ¬ (2 * nbo.toNat + nbc.toNat * (2 + nbo.toNat)
          ≤ (rest.take (2 * nbo.toNat + nbc.toNat
            * (2 + nbo.toNat))).length) := by
        rw [List.length_take]
        omega
      rw [if_neg H, if_neg H2]

/-- C8 counterexample: a description whose car-count tokens are `-1` and
`2` (sum `1`, different from `position_count = 2`) is nevertheless parsed
successfully — the loader checks `len(initial_sequence)`, and a negative
count appends nothing, so the sum check of the claim is not what the code
enforces. -/
theorem C8_counterexample :
    load_instance [2, 0, 2, 0, -1, 1, 2]
        = .ok { nb_positions := 2, nb_options := 0, max_cars_per_window := [],
                window_size := [], options := [[], []],
                initial_sequence := [1, 1] }
      ∧ ((classesPure 0 2 ([0, -1, 1, 2] : List Int)).map ClassData.count).sum
          ≠ (2 : Int) :=
  ⟨by decide, by decide⟩

/-- C8 (amended): when the token stream is long enough and every car-count
token is nonnegative, construction fails with the sum-mismatch
`ValueError` exactly when the sum of the per-class car counts differs from
`position_count`. -/
theorem C8_sum_check (nbp nbo nbc : Int) (rest : List Int)
    (hlen : 2 * nbo.toNat + nbc.toNat * (2 + nbo.toNat) ≤ rest.length)
    (hnn : ∀ cd ∈ classesPure nbo.toNat nbc.toNat (rest.drop (2 * nbo.toNat)),
      0 ≤ cd.count) :
    load_instance (nbp :: nbo :: nbc :: rest) = .error .sumMismatch
      ↔ ((classesPure nbo.toNat nbc.toNat
          (rest.drop (2 * nbo.toNat))).map ClassData.count).sum ≠ nbp := by
  rw [load_instance_eq, if_pos hlen]
  have hsum : ((initialSeqOf 0 (classesPure nbo.toNat nbc.toNat
        (rest.drop (2 * nbo.toNat)))).length : Int)
      = ((classesPure nbo.toNat nbc.toNat
          (rest.drop (2 * nbo.toNat))).map ClassData.count).sum := by
    rw [initialSeqOf_length]
    exact sum_count_toNat _ hnn
  rw [hsum]
  by_cases h : ((classesPure nbo.toNat nbc.toNat
      (rest.drop (2 * nbo.toNat))).map ClassData.count).sum = nbp
  · rw [if_pos h]
    simp [h]
  · rw [if_neg h]
    simp [h]

/-- Witness for C8 (amended) on a well-formed description whose counts sum
to `position_count`. -/
theorem C8_witness :
    load_instance [4, 1, 2, 1, 2, 0, 2, 1, 1, 2, 0] = .error .sumMismatch
      ↔ ((classesPure 1 2 (([1, 2, 0, 2, 1, 1, 2, 0] : List Int).drop 2)).map
          ClassData.count).sum ≠ (4 : Int) :=
  C8_sum_check 4 1 2 [1, 2, 0, 2, 1, 1, 2, 0] (by decide) (by decide)

/-- C9 counterexample: a successfully parsed description whose class 0 has
car-count token `-1`: class id 0 occurs 0 times in the constructed
`initial_sequence`, not `-1` times, so the per-class counts are not
reproduced exactly as the claim states for every successful parse. -/
theorem C9_counterexample :
    load_instance [3, 0, 2, 0, -1, 1, 3]
        = .ok { nb_positions := 3, nb_options := 0, max_cars_per_window := [],
                window_size := [], options := [[], []],
                initial_sequence := [1, 1, 1] }
      ∧ ((classesPure 0 2 ([0, -1, 1, 3] : List Int)).getD 0 ⟨0, []⟩).count = -1
      ∧ ([1, 1, 1] : List Int).count 0 = 0 :=
  ⟨by decide, by decide, by decide⟩

/-- C9 (amended): for every successful structured-data construction whose
car-count tokens are all nonnegative (as any description generated from
actual per-class counts is), the number of occurrences of each class id
`c` in the constructed `initial_sequence` equals the car-count token read
for class `c`. -/
theorem C9_round_trip (nbp nbo nbc : Int) (rest : List Int)
    (p : CarSequencingProblem)
    (hok : load_instance (nbp :: nbo :: nbc :: rest) = .ok p)
    (hnn : ∀ cd ∈ classesPure nbo.toNat nbc.toNat (rest.drop (2 * nbo.toNat)),
      0 ≤ cd.count)
    (c : Nat) (hc : c < nbc.toNat) :
    (p.initial_sequence.count ((c : Nat) : Int) : Int)
      = ((classesPure nbo.toNat nbc.toNat
          (rest.drop (2 * nbo.toNat))).getD c ⟨0, []⟩).count := by
  rw [load_instance_eq] at hok
  by_cases H : 2 * nbo.toNat + nbc.toNat * (2 + nbo.toNat) ≤ rest.length
  · rw [if_pos H] at hok
    by_cases hs : ((initialSeqOf 0 (classesPure nbo.toNat nbc.toNat
        (rest.drop (2 * nbo.toNat)))).length : Int) = nbp
    · rw [if_pos hs] at hok
      injection hok with hok2
      have hinit : p.initial_sequence = initialSeqOf 0 (classesPure nbo.toNat
          nbc.toNat (rest.drop (2 * nbo.toNat))) := by
        rw [← hok2]
      rw [hinit]
      have hcnt := count_initialSeqOf
        (classesPure nbo.toNat nbc.toNat (rest.drop (2 * nbo.toNat))) 0 c
        (by rw [classesPure_length]; exact hc)
      simp only [Nat.zero_add] at hcnt
      rw [hcnt]
      have hmem : (classesPure nbo.toNat nbc.toNat
          (rest.drop (2 * nbo.toNat))).getD c ⟨0, []⟩
          ∈ classesPure nbo.toNat nbc.toNat (rest.drop (2 * nbo.toNat)) := by
        rw [List.getD_eq_getElem _ _ (by rw [classesPure_length]; exact hc)]
        exact List.getElem_mem _
      exact Int.toNat_of_nonneg (hnn _ hmem)
    · rw [if_neg hs] at hok
      simp at hok
  · rw [if_neg H] at hok
    simp at hok

/-- Witness for C9 (amended): class 0 of the concrete scenario's
description occurs twice, matching its car-count token `2`. -/
theorem C9_witness :
    ((exInstance.initial_sequence.count ((0 : Nat) : Int) : Nat) : Int)
      = ((classesPure 1 2 (([1, 2, 0, 2, 1, 1, 2, 0] : List Int).drop 2)).getD
          0 ⟨0, []⟩).count :=
  C9_round_trip 4 1 2 [1, 2, 0, 2, 1, 1, 2, 0] exInstance (by decide)
    (by decide) 0 (by decide)

/-- C10: a candidate that is not a Python list or tuple is always rejected
with the sentinel, regardless of its contents — in particular another
sequence type holding exactly the valid permutation `[0, ...,
position_count)` is still sentineled, as is any non-sequence value. -/
theorem C10_nonlist_sentinel (p : CarSequencingProblem) (xs : List Int) :
    evaluate_solution p (.otherSeq xs) = some PENALTY
      ∧ evaluate_solution p
          (.otherSeq (rangeList p.nb_positions.toNat)) = some PENALTY
      ∧ evaluate_solution p .nonSequence = some PENALTY :=
  ⟨rfl, rfl, rfl⟩

end CarSeq
